import Mathlib

/-!
Shallow embedding of the relay subsystem of this repository
(source file: teleporter-websocket-relay.js, class TeleporterWebSocketRelay).

Modelling conventions:
- The Node.js event loop runs each callback to completion, so every
  handler (connection, message, close, contract-event callback) is one
  atomic step on the relay state.
- A WebSocket delivery is recorded as a pair (client id, ServerMsg)
  appended to an output list; the numeric readyState field of a socket is
  kept as a Nat (OPEN = 1, as in the ws module).
- Machine integers do not occur on the modelled paths; byte values are
  Nat restricted by the decoder masks.
- The event fields timestamp (wall-clock string, display only) are not
  modelled; every other field of the event objects built at lines 88-99
  and 117-128 of the source is kept.
-/

namespace Relay

/-- Payload of an event after the decode attempt of lines 101-108 /
130-137: either the UTF-8 code points of the message bytes, or, when
decoding throws, the raw bytes together with the messageType = hex flag
(the hex constructor carries both facts). -/
inductive MessageContent where
  | text (codepoints : List Nat)
  | hex (bytes : List Nat)
  deriving DecidableEq, Repr

/-- The data sub-object of an event: sender is set by the
ReceiveCrossChainMessage handler, destinationAddress and requiredGasLimit
by the SendCrossChainMessage handler. -/
structure EventData where
  sender : Option String
  destinationAddress : Option String
  requiredGasLimit : Option Nat
  message : MessageContent
  deriving DecidableEq, Repr

/-- A normalized event as built at source lines 88-99 (received) and
117-128 (sent). counterpartyChain is sourceChain for a received event and
destinationChain for a sent event. -/
structure Event where
  type : String
  network : String
  messageId : Nat
  counterpartyChain : String
  deliverer : Option String
  data : EventData
  deriving DecidableEq, Repr

/-- One WebSocket client as the relay sees it: an identity (object
identity of the ws handle) and the numeric readyState of the socket. -/
structure Client where
  id : Nat
  readyState : Nat
  deriving DecidableEq, Repr

/-- WebSocket.OPEN of the ws module. -/
def wsOPEN : Nat := 1

/-- Per-network counters of the stats object (lines 190-199). -/
structure NetCounts where
  sent : Nat
  received : Nat
  deriving DecidableEq, Repr

/-- The stats reply object built at lines 182-199. networks is the JS
object keyed by network name, kept as an association list in first-seen
key order. -/
structure Stats where
  totalMessages : Nat
  connectedClients : Nat
  networks : List (String × NetCounts)
  deriving DecidableEq, Repr

/-- Server-to-client wire messages (the JSON objects sent by ws.send). -/
inductive ServerMsg where
  | connected (networks : List String)
  | history (messages : List Event)
  | event (e : Event)
  | subscribed (networks : List String)
  | stats (s : Stats)
  | error (err : String)
  deriving DecidableEq, Repr

/-- Parsed client-to-server messages, by the type tag switched on at line
171; unknown covers every other tag. -/
inductive ClientMsg where
  | subscribe (networks : Option (List String))
  | getStats
  | unknown (tag : String)
  deriving DecidableEq, Repr

/-- An inbound frame before JSON.parse: either it fails to parse
(malformed carries error.message) or it parses to a ClientMsg. -/
inductive RawMsg where
  | malformed (errMessage : String)
  | parsed (data : ClientMsg)
  deriving DecidableEq, Repr

/-- The mutable state of a TeleporterWebSocketRelay instance: the fields
set in the constructor (lines 12-19) that the claims concern. networks
stands for Object.keys(config.networks). -/
structure RelayState where
  networks : List String
  clients : List Client
  messageHistory : List Event
  maxHistorySize : Nat
  deriving DecidableEq, Repr

/-- The constructor (lines 12-19): empty client set, empty history,
maxHistorySize = 100. -/
def initRelay (networks : List String) : RelayState :=
  { networks := networks
    clients := []
    messageHistory := []
    maxHistorySize := 100 }

/-- Lines 149-152 of broadcastEvent: push the event, then shift once if
the length exceeds maxHistorySize. -/
def appendHistory (hist : List Event) (e : Event) (maxSize : Nat) : List Event :=
  let h := hist ++ [e]
  if maxSize < h.length then h.tail else h

/-- broadcastEvent (lines 147-160): append to history, then send the
event to every client whose readyState is OPEN. A client that is not
OPEN is skipped by the guard at line 157, which is what keeps a dead
socket from raising into the loop; the function is total, so no failure
propagates to the caller. Returns the new state and the deliveries. -/
def broadcastEvent (st : RelayState) (e : Event) : RelayState × List (Nat × ServerMsg) :=
  let hist := appendHistory st.messageHistory e st.maxHistorySize
  let deliveries :=
    (st.clients.filter (fun c => c.readyState = wsOPEN)).map
      (fun c => (c.id, ServerMsg.event e))
  ({ st with messageHistory := hist }, deliveries)

/-- Set.add semantics of this.clients.add(ws) at line 42: adding an
already present handle is a no-op. -/
def addClient (cs : List Client) (c : Client) : List Client :=
  if cs.any (fun x => x.id = c.id) then cs else cs ++ [c]

/-- The connection handler (lines 40-57): register the client, send the
connected ack, then send the history message only when the history is
nonempty (the guard at line 52). -/
def onConnection (st : RelayState) (ws : Client) : RelayState × List (Nat × ServerMsg) :=
  let st1 := { st with clients := addClient st.clients ws }
  let msgs :=
    if 0 < st.messageHistory.length then
      [(ws.id, ServerMsg.connected st.networks),
       (ws.id, ServerMsg.history st.messageHistory)]
    else
      [(ws.id, ServerMsg.connected st.networks)]
  (st1, msgs)

/-- The close handler (lines 73-76): this.clients.delete(ws), removing
that handle and nothing else. -/
def onClose (st : RelayState) (ws : Client) : RelayState :=
  { st with clients := st.clients.filter (fun c => ¬ c.id = ws.id) }

/-- First-seen initialization of stats.networks[msg.network] (lines
191-193). -/
def ensureNet (acc : List (String × NetCounts)) (net : String) : List (String × NetCounts) :=
  if acc.any (fun p => p.1 = net) then acc else acc ++ [(net, ⟨0, 0⟩)]

/-- The branch at lines 194-198: the sent counter is incremented when
the message type is message_sent, the received counter otherwise. -/
def bumpCounts (isSent : Bool) (c : NetCounts) : NetCounts :=
  if isSent then ⟨c.sent + 1, c.received⟩ else ⟨c.sent, c.received + 1⟩

/-- The increment stats.networks[msg.network].sent++ (resp. received++)
applied to the entry of the message network. -/
def tallyMsg (acc : List (String × NetCounts)) (net : String) (isSent : Bool) :
    List (String × NetCounts) :=
  acc.map (fun p => if p.1 = net then (p.1, bumpCounts isSent p.2) else p)

/-- One iteration of the per-message loop at lines 190-199. -/
def statsStep (acc : List (String × NetCounts)) (msg : Event) : List (String × NetCounts) :=
  tallyMsg (ensureNet acc msg.network) msg.network (msg.type = "message_sent")

/-- The stats object of lines 182-199: totalMessages is the history
length, connectedClients the client-set size, networks the single pass
over messageHistory. -/
def computeStats (st : RelayState) : Stats :=
  { totalMessages := st.messageHistory.length
    connectedClients := st.clients.length
    networks := st.messageHistory.foldl statsStep [] }

/-- handleClientMessage (lines 170-210): subscribe echoes the requested
networks (all configured networks when the field is absent) without
touching any state; get_stats replies with the computed stats; any other
tag gets the unknown-type error. Every branch replies to ws only. -/
def handleClientMessage (st : RelayState) (ws : Client) (data : ClientMsg) :
    RelayState × List (Nat × ServerMsg) :=
  match data with
  | ClientMsg.subscribe nets =>
      (st, [(ws.id, ServerMsg.subscribed (nets.getD st.networks))])
  | ClientMsg.getStats =>
      (st, [(ws.id, ServerMsg.stats (computeStats st))])
  | ClientMsg.unknown _ =>
      (st, [(ws.id, ServerMsg.error "Unknown message type")])

/-- The message handler (lines 60-70): JSON.parse failure is caught and
answered with an error message on the same socket; a parsed message goes
to handleClientMessage. -/
def onMessage (st : RelayState) (ws : Client) (raw : RawMsg) :
    RelayState × List (Nat × ServerMsg) :=
  match raw with
  | RawMsg.malformed err => (st, [(ws.id, ServerMsg.error err)])
  | RawMsg.parsed data => handleClientMessage st ws data

/-! ### UTF-8 decoding, after ethers.toUtf8String with the default
(throwing) error strategy: getUtf8CodePoints of ethers v6. -/

/-- A continuation byte must match 10xxxxxx. -/
def isCont (b : Nat) : Bool :=
  b &&& 0xc0 == 0x80

/-- Checks applied to an assembled code point before it is accepted:
out-of-range, UTF-16 surrogate and overlong encodings all throw in
ethers, modelled as none. -/
def checkCodePoint (res overlongMask : Nat) : Option Nat :=
  if 0x10ffff < res then none
  else if 0xd800 ≤ res ∧ res ≤ 0xdfff then none
  else if res ≤ overlongMask then none
  else some res

/-- The code-point scan of ethers getUtf8CodePoints with the default
(throwing) error strategy: ASCII passes through; a multi-byte prefix
fixes the number of continuation bytes (here unrolled per prefix, with
the length-prefix masks 0x3f, 0x1f, 0x0f from c AND
((1 shl (8 - extraLength - 1)) - 1)) and the overlong mask; any of
overrun, bad prefix, bad continuation, out-of-range, surrogate or
overlong encoding makes the whole decode throw, modelled as none. -/
def utf8CodePoints : List Nat → Option (List Nat)
  | [] => some []
  | c :: rest =>
    if c < 0x80 then (utf8CodePoints rest).map (fun cs => c :: cs)
    else if c &&& 0xe0 = 0xc0 then
      match rest with
      | b1 :: rest' =>
        if isCont b1 then
          match checkCodePoint (((c &&& 0x3f) <<< 6) ||| (b1 &&& 0x3f)) 0x7f with
          | some res => (utf8CodePoints rest').map (fun cs => res :: cs)
          | none => none
        else none
      | [] => none
    else if c &&& 0xf0 = 0xe0 then
      match rest with
      | b1 :: b2 :: rest' =>
        if isCont b1 && isCont b2 then
          match checkCodePoint
              ((((c &&& 0x1f) <<< 6 ||| (b1 &&& 0x3f)) <<< 6) ||| (b2 &&& 0x3f))
              0x7ff with
          | some res => (utf8CodePoints rest').map (fun cs => res :: cs)
          | none => none
        else none
      | _ => none
    else if c &&& 0xf8 = 0xf0 then
      match rest with
      | b1 :: b2 :: b3 :: rest' =>
        if isCont b1 && isCont b2 && isCont b3 then
          match checkCodePoint
              (((((c &&& 0xf) <<< 6 ||| (b1 &&& 0x3f)) <<< 6 ||| (b2 &&& 0x3f)) <<< 6) |||
                (b3 &&& 0x3f))
              0xffff with
          | some res => (utf8CodePoints rest').map (fun cs => res :: cs)
          | none => none
        else none
      | _ => none
    else none

/-- The try/catch of lines 101-108 and 130-137: one decode attempt; on
success the event carries the code points, on failure the raw bytes with
the hex flag. Total, so normalization never raises. -/
def normalizeMessage (bytes : List Nat) : MessageContent :=
  match utf8CodePoints bytes with
  | some cps => MessageContent.text cps
  | none => MessageContent.hex bytes

/-- The ReceiveCrossChainMessage callback (lines 87-111): build the
message_received event, then hand it to broadcastEvent. -/
def receiveHandler (networkName : String) (messageId : Nat)
    (sourceBlockchainId : String) (deliverer : String)
    (originSenderAddress : String) (messageBytes : List Nat) : Event :=
  { type := "message_received"
    network := networkName
    messageId := messageId
    counterpartyChain := sourceBlockchainId
    deliverer := some deliverer
    data :=
      { sender := some originSenderAddress
        destinationAddress := none
        requiredGasLimit := none
        message := normalizeMessage messageBytes } }

/-- The SendCrossChainMessage callback (lines 116-140): build the
message_sent event, then hand it to broadcastEvent. -/
def sendHandler (networkName : String) (messageId : Nat)
    (destinationBlockchainId : String) (destinationAddress : String)
    (requiredGasLimit : Nat) (messageBytes : List Nat) : Event :=
  { type := "message_sent"
    network := networkName
    messageId := messageId
    counterpartyChain := destinationBlockchainId
    deliverer := none
    data :=
      { sender := none
        destinationAddress := some destinationAddress
        requiredGasLimit := some requiredGasLimit
        message := normalizeMessage messageBytes } }

/-- The ring contents after a sequence of appends into an empty ring of
the given capacity (broadcastEvent applied event by event, history part
only). -/
def ringAfter (maxSize : Nat) (es : List Event) : List Event :=
  es.foldl (fun h e => appendHistory h e maxSize) []

/-- Sample events used by concrete witnesses below. -/
def evA (i : Nat) : Event :=
  receiveHandler "A" i "chainB" "0xdel" "0xsender" [104, 105]

/-- Sample sent events on a chosen network. -/
def evSent (net : String) (i : Nat) : Event :=
  sendHandler net i "chainC" "0xdest" 100000 [104, 105]

/-- Sample received events on a chosen network. -/
def evRecv (net : String) (i : Nat) : Event :=
  receiveHandler net i "chainC" "0xdel" "0xsender" [104, 105]

/-- A sample open client. -/
def cl0 : Client := { id := 0, readyState := wsOPEN }

/-- A sample open client with a different handle. -/
def cl1 : Client := { id := 1, readyState := wsOPEN }

/-- A sample client whose socket is already closed (readyState 3). -/
def clDead : Client := { id := 2, readyState := 3 }

/-- Lookup in the association-list view of the stats.networks object. -/
def lookupNet : List (String × NetCounts) → String → Option NetCounts
  | [], _ => none
  | p :: ps, n => if p.1 = n then some p.2 else lookupNet ps n

/-- A relay state holding the example of the claim: three sent events on
network A, two received events on network B, one connected client. -/
def statsExampleState : RelayState :=
  { initRelay ["A", "B"] with
      clients := [cl0]
      messageHistory :=
        [evSent "A" 0, evSent "A" 1, evSent "A" 2, evRecv "B" 3, evRecv "B" 4] }

/-- The two internal stages of one broadcastEvent call in source order:
first the history append of lines 149-152, then one send per OPEN client
(lines 156-160), each send happening in the already-appended state. An
entry is the state in force at that micro-step together with the
delivery it performs (none for the append stage). -/
def broadcastPhases (st : RelayState) (e : Event) :
    List (RelayState × Option (Nat × ServerMsg)) :=
  let st1 := { st with messageHistory := appendHistory st.messageHistory e st.maxHistorySize }
  (st1, none) ::
    (st1.clients.filter (fun c => c.readyState = wsOPEN)).map
      (fun c => (st1, some (c.id, ServerMsg.event e)))

/-- Broadcast a list of events one after the other, collecting all
deliveries in order. -/
def foldBroadcast : RelayState → List Event → RelayState × List (Nat × ServerMsg)
  | st, [] => (st, [])
  | st, e :: es =>
    let r := broadcastEvent st e
    let rest := foldBroadcast r.1 es
    (rest.1, r.2 ++ rest.2)

/-- Events contained in history messages delivered to the given client
id within a delivery log. -/
def historyEventsTo (cid : Nat) (log : List (Nat × ServerMsg)) : List Event :=
  (log.filterMap (fun m =>
    match m with
    | (i, ServerMsg.history evs) => if i = cid then some evs else none
    | _ => none)).flatten

/-- Events contained in live event messages delivered to the given
client id within a delivery log. -/
def liveEventsTo (cid : Nat) (log : List (Nat × ServerMsg)) : List Event :=
  log.filterMap (fun m =>
    match m with
    | (i, ServerMsg.event e) => if i = cid then some e else none
    | _ => none)

/-- The C2 scenario: starting from a fresh relay, the events before are
appended, then the session c connects, then the events after are
appended; the final state and the entire delivery log are returned. -/
def connectTrace (ns : List String) (before after : List Event) (c : Client) :
    RelayState × List (Nat × ServerMsg) :=
  let p1 := foldBroadcast (initRelay ns) before
  let p2 := onConnection p1.1 c
  let p3 := foldBroadcast p2.1 after
  (p3.1, p1.2 ++ p2.2 ++ p3.2)

/-- Sum over the stats.networks object of sent + received. -/
def sumNetCounts (l : List (String × NetCounts)) : Nat :=
  (l.map (fun p => p.2.sent + p.2.received)).sum

/-- The relay states reachable from a constructor call by the handlers
the source installs: connection, close, client message, and the two
contract-event callbacks (which are the only callers of
broadcastEvent). -/
inductive Reachable : RelayState → Prop where
  | init (ns : List String) : Reachable (initRelay ns)
  | connect {st : RelayState} (ws : Client) :
      Reachable st → Reachable (onConnection st ws).1
  | close {st : RelayState} (ws : Client) :
      Reachable st → Reachable (onClose st ws)
  | message {st : RelayState} (ws : Client) (raw : RawMsg) :
      Reachable st → Reachable (onMessage st ws raw).1
  | receiveEvent {st : RelayState} (networkName : String) (messageId : Nat)
      (sourceBlockchainId deliverer originSenderAddress : String)
      (messageBytes : List Nat) :
      Reachable st →
      Reachable (broadcastEvent st
        (receiveHandler networkName messageId sourceBlockchainId deliverer
          originSenderAddress messageBytes)).1
  | sendEvent {st : RelayState} (networkName : String) (messageId : Nat)
      (destinationBlockchainId destinationAddress : String)
      (requiredGasLimit : Nat) (messageBytes : List Nat) :
      Reachable st →
      Reachable (broadcastEvent st
        (sendHandler networkName messageId destinationBlockchainId
          destinationAddress requiredGasLimit messageBytes)).1

theorem appendHistory_of_full (h : List Event) (e : Event) (maxSize : Nat)
    (hfull : maxSize ≤ h.length) : appendHistory h e maxSize = (h ++ [e]).drop 1 := by
  have hc : maxSize < (h ++ [e]).length := by
    simp
    omega
  simp only [appendHistory]
  rw [if_pos hc, List.drop_one]

theorem appendHistory_of_not_full (h : List Event) (e : Event) (maxSize : Nat)
    (hroom : h.length < maxSize) : appendHistory h e maxSize = h ++ [e] := by
  have hc : ¬ maxSize < (h ++ [e]).length := by
    simp
    omega
  simp only [appendHistory]
  rw [if_neg hc]

theorem appendHistory_foldl (maxSize : Nat) :
    ∀ (es : List Event) (h : List Event), h.length ≤ maxSize →
      es.foldl (fun acc e => appendHistory acc e maxSize) h =
        (h ++ es).drop (h.length + es.length - maxSize) := by
  intro es
  induction es with
  | nil =>
    intro h hle
    simp [Nat.sub_eq_zero_of_le hle]
  | cons e es ih =>
    intro h hle
    simp only [List.foldl_cons]
    rcases Nat.lt_or_ge h.length maxSize with hlt | hge
    · rw [appendHistory_of_not_full h e maxSize hlt]
      rw [ih (h ++ [e]) (by simp; omega)]
      have hassoc : (h ++ [e]) ++ es = h ++ e :: es := by
        simp
      rw [hassoc]
      congr 1
      simp only [List.length_append, List.length_cons, List.length_nil]
      omega
    · have heq : h.length = maxSize := Nat.le_antisymm hle hge
      rw [appendHistory_of_full h e maxSize hge]
      rw [ih ((h ++ [e]).drop 1) (by simp; omega)]
      have hsplit : (h ++ [e]).drop 1 ++ es = ((h ++ [e]) ++ es).drop 1 :=
        (List.drop_append_of_le_length (by simp)).symm
      rw [hsplit, List.drop_drop]
      have hassoc : (h ++ [e]) ++ es = h ++ e :: es := by
        simp
      rw [hassoc]
      congr 1
      simp only [List.length_drop, List.length_append, List.length_cons, List.length_nil]
      omega

theorem ringAfter_eq_drop (maxSize : Nat) (es : List Event) :
    ringAfter maxSize es = es.drop (es.length - maxSize) := by
  have h := appendHistory_foldl maxSize es [] (by simp)
  simpa [ringAfter] using h

theorem ringAfter_length (maxSize : Nat) (es : List Event) :
    (ringAfter maxSize es).length = min es.length maxSize := by
  rw [ringAfter_eq_drop]
  simp [List.length_drop]
  omega

/-- C1: the History Ring holds, after any N appends into capacity H,
exactly the last min(N, H) events in append order; on overflow the single
evicted event is the oldest one, so after H + 1 distinct appends the ring
is exactly the tail of the append sequence and the first-appended event is
absent. Also ties the ring update to broadcastEvent and records the
default capacity 100 of the constructor. -/
theorem historyRing_fifo :
    (∀ st e, (broadcastEvent st e).1.messageHistory =
        appendHistory st.messageHistory e st.maxHistorySize) ∧
    (∀ ns, (initRelay ns).maxHistorySize = 100 ∧ (initRelay ns).messageHistory = []) ∧
    (∀ maxSize es, (ringAfter maxSize es).length = min es.length maxSize ∧
        ringAfter maxSize es = es.drop (es.length - maxSize)) ∧
    (∀ maxSize es, es.Nodup → es.length = maxSize + 1 →
        ringAfter maxSize es = es.tail ∧
        ∀ e0, es.head? = some e0 → e0 ∉ ringAfter maxSize es) := by
  refine ⟨fun st e => rfl, fun ns => ⟨rfl, rfl⟩,
    fun maxSize es => ⟨ringAfter_length maxSize es, ringAfter_eq_drop maxSize es⟩,
    fun maxSize es hnd hlen => ?_⟩
  have hdrop : ringAfter maxSize es = es.drop 1 := by
    rw [ringAfter_eq_drop, hlen]
    simp
  constructor
  · rw [hdrop, List.drop_one]
  · intro e0 hhead
    cases es with
    | nil => simp at hhead
    | cons x t =>
      simp at hhead
      subst hhead
      rw [hdrop]
      simp [List.drop_one]
      exact (List.nodup_cons.mp hnd).1

/-- Concrete instantiation of historyRing_fifo: three distinct events
into a ring of capacity two keep the last two and evict the first. -/
theorem historyRing_fifo_witness :
    ringAfter 2 [evA 0, evA 1, evA 2] = [evA 1, evA 2] ∧
      evA 0 ∉ ringAfter 2 [evA 0, evA 1, evA 2] := by
  have h := historyRing_fifo.2.2.2 2 [evA 0, evA 1, evA 2] (by decide) (by decide)
  exact ⟨h.1, h.2 (evA 0) rfl⟩

/-- C4: a broadcast delivers the event to every registered OPEN session;
a session whose socket is not OPEN is skipped without any error reaching
the caller (broadcastEvent is a total function and the delivery list
still covers all other sessions), and the close handler removes exactly
the failed session from the registry, leaving every other session and
the history untouched. -/
theorem broadcast_isolation :
    (∀ st e c, c ∈ st.clients → c.readyState = wsOPEN →
        (c.id, ServerMsg.event e) ∈ (broadcastEvent st e).2) ∧
    (∀ st e c, (st.clients.map Client.id).Nodup → c ∈ st.clients →
        ¬ c.readyState = wsOPEN →
        (c.id, ServerMsg.event e) ∉ (broadcastEvent st e).2) ∧
    (∀ st e, (broadcastEvent st e).1.clients = st.clients) ∧
    (∀ st ws, (onClose st ws).messageHistory = st.messageHistory ∧
        (∀ c, c ∈ st.clients → ¬ c.id = ws.id → c ∈ (onClose st ws).clients) ∧
        (∀ c, c ∈ (onClose st ws).clients → ¬ c.id = ws.id ∧ c ∈ st.clients)) := by
  refine ⟨?_, ?_, fun st e => rfl, ?_⟩
  · intro st e c hc hopen
    simp only [broadcastEvent, List.mem_map]
    exact ⟨c, List.mem_filter.mpr ⟨hc, by simp [hopen]⟩, rfl⟩
  · intro st e c hnd hc hnotopen hmem
    simp only [broadcastEvent, List.mem_map] at hmem
    obtain ⟨c', hc', heq⟩ := hmem
    have hid : c'.id = c.id := by
      simpa using congrArg Prod.fst heq
    have hc'mem := (List.mem_filter.mp hc').1
    have hopen' : c'.readyState = wsOPEN := by
      have := (List.mem_filter.mp hc').2
      simpa using this
    have : c' = c := List.inj_on_of_nodup_map hnd hc'mem hc hid
    exact hnotopen (this ▸ hopen')
  · intro st ws
    refine ⟨rfl, ?_, ?_⟩
    · intro c hc hne
      simp only [onClose]
      exact List.mem_filter.mpr ⟨hc, by simp [hne]⟩
    · intro c hc
      simp only [onClose] at hc
      have h1 := (List.mem_filter.mp hc).1
      have h2 := (List.mem_filter.mp hc).2
      refine ⟨by simpa using h2, h1⟩

/-- Concrete instantiation of broadcast_isolation: with one open and one
dead session registered, the open one receives the event, the dead one
receives nothing, and closing the dead one removes only it. -/
theorem broadcast_isolation_witness :
    (cl0.id, ServerMsg.event (evA 0)) ∈
        (broadcastEvent { initRelay ["A"] with clients := [cl0, clDead] } (evA 0)).2 ∧
    (clDead.id, ServerMsg.event (evA 0)) ∉
        (broadcastEvent { initRelay ["A"] with clients := [cl0, clDead] } (evA 0)).2 ∧
    cl0 ∈ (onClose { initRelay ["A"] with clients := [cl0, clDead] } clDead).clients := by
  refine ⟨?_, ?_, ?_⟩
  · exact broadcast_isolation.1 { initRelay ["A"] with clients := [cl0, clDead] }
      (evA 0) cl0 (by decide) (by decide)
  · exact broadcast_isolation.2.1 { initRelay ["A"] with clients := [cl0, clDead] }
      (evA 0) clDead (by decide) (by decide) (by decide)
  · exact ((broadcast_isolation.2.2.2 { initRelay ["A"] with clients := [cl0, clDead] }
      clDead).2.1) cl0 (by decide) (by decide)

/-- C5 counterexample: on a fresh relay the History Ring is empty and the
connection handler sends the connected ack only — no history-replay
message is sent to the new session, against the claim that one is sent
even when the ring is empty. -/
theorem connect_empty_ring_no_history_msg :
    (onConnection (initRelay ["A"]) cl0).2 = [(0, ServerMsg.connected ["A"])] ∧
    ∀ m ∈ (onConnection (initRelay ["A"]) cl0).2, ∀ evs, ¬ m.2 = ServerMsg.history evs := by
  have h : (onConnection (initRelay ["A"]) cl0).2 = [(0, ServerMsg.connected ["A"])] := rfl
  refine ⟨h, ?_⟩
  rw [h]
  intro m hm evs
  simp only [List.mem_singleton] at hm
  subst hm
  simp

/-- C5 amended: every accepted connection gets exactly one connected ack
listing the known networks first; a history message carrying the full
current ring snapshot follows it only when the ring is nonempty (the
guard at source line 52), and when the ring is empty no history message
is sent at all. The handler is one atomic event-loop step, so both
messages precede any live broadcast to that session. -/
theorem connect_sequence :
    (∀ st c, 0 < st.messageHistory.length →
        (onConnection st c).2 =
          [(c.id, ServerMsg.connected st.networks),
           (c.id, ServerMsg.history st.messageHistory)]) ∧
    (∀ st c, st.messageHistory.length = 0 →
        (onConnection st c).2 = [(c.id, ServerMsg.connected st.networks)]) ∧
    (∀ st c, (onConnection st c).1.messageHistory = st.messageHistory ∧
        (onConnection st c).1.clients = addClient st.clients c ∧
        (onConnection st c).2.head? = some (c.id, ServerMsg.connected st.networks)) := by
  refine ⟨?_, ?_, ?_⟩
  · intro st c hpos
    simp [onConnection, if_pos hpos]
  · intro st c hzero
    have hnot : ¬ 0 < st.messageHistory.length := by omega
    simp [onConnection, if_neg hnot]
  · intro st c
    refine ⟨rfl, rfl, ?_⟩
    by_cases hpos : 0 < st.messageHistory.length
    · simp [onConnection, if_pos hpos]
    · simp [onConnection, if_neg hpos]

/-- Concrete instantiation of connect_sequence: a relay whose ring holds
one event replays it right after the ack; a fresh relay sends the ack
alone. -/
theorem connect_sequence_witness :
    (onConnection { initRelay ["A"] with messageHistory := [evA 0] } cl0).2 =
      [(0, ServerMsg.connected ["A"]), (0, ServerMsg.history [evA 0])] ∧
    (onConnection (initRelay ["A"]) cl0).2 = [(0, ServerMsg.connected ["A"])] := by
  constructor
  · exact connect_sequence.1 { initRelay ["A"] with messageHistory := [evA 0] } cl0
      (by decide)
  · exact connect_sequence.2.1 (initRelay ["A"]) cl0 (by decide)

/-- C8 counterexample: handling subscribe requests for two different
network sets leaves the relay state — the registry included — equal to
the original state in both cases, so no per-session subscription filter
is recorded anywhere; the claim that the handler updates that session
filter in the registry fails. -/
theorem subscribe_stores_no_filter :
    (handleClientMessage (initRelay ["A", "B"]) cl0
        (ClientMsg.subscribe (some ["A"]))).1 = initRelay ["A", "B"] ∧
    (handleClientMessage (initRelay ["A", "B"]) cl0
        (ClientMsg.subscribe (some ["B"]))).1 = initRelay ["A", "B"] :=
  ⟨rfl, rfl⟩

/-- C8 amended: handling a subscribe request only echoes a subscribed
ack to the requesting session, listing the requested networks or all
configured networks when the field is absent; the relay state is
completely unchanged (so in particular the ring and every other session
are untouched and no filter is stored — later broadcasts still go to
every OPEN session regardless of any subscribe request), and no history
message is ever sent in reply. -/
theorem subscribe_acks_only :
    (∀ st ws nets, handleClientMessage st ws (ClientMsg.subscribe nets) =
        (st, [(ws.id, ServerMsg.subscribed (nets.getD st.networks))])) ∧
    (∀ st ws nets m, m ∈ (handleClientMessage st ws (ClientMsg.subscribe nets)).2 →
        m.1 = ws.id ∧ ∀ evs, ¬ m.2 = ServerMsg.history evs) ∧
    (∀ st e, (broadcastEvent st e).2 =
        (st.clients.filter (fun c => c.readyState = wsOPEN)).map
          (fun c => (c.id, ServerMsg.event e))) := by
  refine ⟨fun st ws nets => rfl, ?_, fun st e => rfl⟩
  intro st ws nets m hm
  simp only [handleClientMessage, List.mem_singleton] at hm
  subst hm
  exact ⟨rfl, fun evs => by simp⟩

/-- Concrete instantiation of subscribe_acks_only. -/
theorem subscribe_acks_only_witness :
    (handleClientMessage (initRelay ["A", "B"]) cl0 (ClientMsg.subscribe none)) =
      (initRelay ["A", "B"], [(0, ServerMsg.subscribed ["A", "B"])]) ∧
    ((0 : Nat), ServerMsg.subscribed ["A"]).1 = cl0.id := by
  refine ⟨subscribe_acks_only.1 (initRelay ["A", "B"]) cl0 none, ?_⟩
  exact (subscribe_acks_only.2.1 (initRelay ["A", "B"]) cl0 (some ["A"])
    ((0 : Nat), ServerMsg.subscribed ["A"]) (by decide)).1

/-- C9: a malformed inbound frame is answered with an error message on
the same session, built from the caught parse error; a parsed frame of
unknown type is answered with the unknown-type error; in both cases —
and in fact for every inbound frame — the relay state is unchanged, so
the session stays registered, the ring is untouched, and nothing is sent
to any other session. -/
theorem malformed_message_isolated :
    (∀ st ws err, onMessage st ws (RawMsg.malformed err) =
        (st, [(ws.id, ServerMsg.error err)])) ∧
    (∀ st ws tag, onMessage st ws (RawMsg.parsed (ClientMsg.unknown tag)) =
        (st, [(ws.id, ServerMsg.error "Unknown message type")])) ∧
    (∀ st ws raw, (onMessage st ws raw).1 = st ∧
        ∀ m ∈ (onMessage st ws raw).2, m.1 = ws.id) := by
  refine ⟨fun st ws err => rfl, fun st ws tag => rfl, ?_⟩
  intro st ws raw
  cases raw with
  | malformed err =>
    exact ⟨rfl, by intro m hm; simp only [onMessage, List.mem_singleton] at hm; subst hm; rfl⟩
  | parsed data =>
    cases data with
    | subscribe nets =>
      exact ⟨rfl, by
        intro m hm
        simp only [onMessage, handleClientMessage, List.mem_singleton] at hm
        subst hm; rfl⟩
    | getStats =>
      exact ⟨rfl, by
        intro m hm
        simp only [onMessage, handleClientMessage, List.mem_singleton] at hm
        subst hm; rfl⟩
    | unknown tag =>
      exact ⟨rfl, by
        intro m hm
        simp only [onMessage, handleClientMessage, List.mem_singleton] at hm
        subst hm; rfl⟩

/-- Concrete instantiation of malformed_message_isolated. -/
theorem malformed_message_isolated_witness :
    onMessage (initRelay ["A"]) cl0 (RawMsg.malformed "Unexpected token") =
      (initRelay ["A"], [(0, ServerMsg.error "Unexpected token")]) ∧
    ((0 : Nat), ServerMsg.error "Unexpected token").1 = cl0.id := by
  refine ⟨malformed_message_isolated.1 (initRelay ["A"]) cl0 "Unexpected token", ?_⟩
  exact (malformed_message_isolated.2.2 (initRelay ["A"]) cl0
    (RawMsg.malformed "Unexpected token")).2
    ((0 : Nat), ServerMsg.error "Unexpected token") (by decide)

theorem lookupNet_tallyMsg (acc : List (String × NetCounts)) (net n : String) (b : Bool) :
    lookupNet (tallyMsg acc net b) n =
      (lookupNet acc n).map (fun c => if n = net then bumpCounts b c else c) := by
  induction acc with
  | nil => rfl
  | cons p ps ih =>
    simp only [tallyMsg, List.map_cons] at ih ⊢
    by_cases h1 : p.1 = net <;> by_cases h2 : p.1 = n
    · have hnn : n = net := h2 ▸ h1
      simp [lookupNet, h1, h2, hnn]
    · have hnn : ¬ n = net := fun hc => h2 (h1.trans hc.symm)
      have h2' : ¬ net = n := fun hc => h2 (h1.trans hc)
      simp [lookupNet, h1, h2, hnn, h2', ih]
    · have hnn : ¬ n = net := fun hc => h1 (h2.trans hc)
      simp [lookupNet, h1, h2, hnn]
    · simp [lookupNet, h1, h2, ih]

theorem lookupNet_append_single (acc : List (String × NetCounts)) (net n : String)
    (c : NetCounts) :
    lookupNet (acc ++ [(net, c)]) n =
      ((lookupNet acc n).orElse (fun _ => if net = n then some c else none)) := by
  induction acc with
  | nil => simp [lookupNet]
  | cons p ps ih =>
    by_cases h : p.1 = n <;> simp [lookupNet, h, ih]

theorem any_key_eq_isSome (acc : List (String × NetCounts)) (net : String) :
    acc.any (fun p => p.1 = net) = (lookupNet acc net).isSome := by
  induction acc with
  | nil => rfl
  | cons p ps ih =>
    by_cases h : p.1 = net <;> simp [lookupNet, List.any_cons, h, ih]

theorem lookupNet_ensureNet (acc : List (String × NetCounts)) (net n : String) :
    lookupNet (ensureNet acc net) n =
      if n = net then some ((lookupNet acc net).getD ⟨0, 0⟩) else lookupNet acc n := by
  unfold ensureNet
  by_cases hany : acc.any (fun p => p.1 = net) = true
  · rw [if_pos hany]
    rw [any_key_eq_isSome] at hany
    by_cases hn : n = net
    · subst hn
      cases hcase : lookupNet acc n with
      | none => rw [hcase] at hany; simp at hany
      | some c => simp [hcase]
    · simp [hn]
  · rw [if_neg hany]
    rw [any_key_eq_isSome] at hany
    have hnone : lookupNet acc net = none := by
      cases hcase : lookupNet acc net with
      | none => rfl
      | some c => rw [hcase] at hany; simp at hany
    rw [lookupNet_append_single]
    by_cases hn : n = net
    · subst hn
      rw [hnone]
      simp
    · have hnn : ¬ net = n := fun hc => hn hc.symm
      cases lookupNet acc n <;> simp [hn, hnn]

theorem lookupNet_statsStep (acc : List (String × NetCounts)) (e : Event) (n : String) :
    lookupNet (statsStep acc e) n =
      if n = e.network then
        some (bumpCounts (decide (e.type = "message_sent"))
          ((lookupNet acc e.network).getD ⟨0, 0⟩))
      else lookupNet acc n := by
  unfold statsStep
  rw [lookupNet_tallyMsg, lookupNet_ensureNet]
  by_cases hn : n = e.network
  · simp [hn]
  · cases lookupNet acc n <;> simp [hn]

theorem filter_nil_of_not_any (hist : List Event) (n : String)
    (hnone : hist.any (fun e => e.network = n) = false) (q : Event → Prop)
    [DecidablePred q] :
    hist.filter (fun e => e.network = n ∧ q e) = [] := by
  rw [List.filter_eq_nil_iff]
  intro e he
  have := List.any_eq_false.mp hnone e he
  simp at this ⊢
  intro hc
  exact absurd hc this

theorem lookupNet_statsFold (hist : List Event) (n : String) :
    lookupNet (hist.foldl statsStep []) n =
      if hist.any (fun e => e.network = n) then
        some ⟨(hist.filter (fun e => e.network = n ∧ e.type = "message_sent")).length,
              (hist.filter (fun e => e.network = n ∧ ¬ e.type = "message_sent")).length⟩
      else none := by
  induction hist using List.reverseRecOn with
  | nil => rfl
  | append_singleton hist e ih =>
    rw [List.foldl_append, List.foldl_cons, List.foldl_nil, lookupNet_statsStep]
    by_cases hn : n = e.network
    · rw [if_pos hn]
      rw [hn] at ih ⊢
      rw [ih]
      have hany : ((hist ++ [e]).any fun x => x.network = e.network) = true := by
        simp [List.any_append]
      rw [if_pos hany]
      by_cases hprev : (hist.any fun x => x.network = e.network) = true
      · rw [if_pos hprev]
        by_cases hsent : e.type = "message_sent" <;>
          simp [bumpCounts, List.filter_append, hsent]
      · rw [if_neg hprev]
        have hprev' : (hist.any fun x => x.network = e.network) = false := by
          simpa using hprev
        have hnone : ∀ x ∈ hist, ¬ x.network = e.network := by
          intro x hx
          simpa using List.any_eq_false.mp hprev' x hx
        have hz : ∀ q : Event → Bool,
            hist.filter (fun x => decide (x.network = e.network) && q x) = [] := by
          intro q
          rw [List.filter_eq_nil_iff]
          intro a ha
          simp [hnone a ha]
        by_cases hsent : e.type = "message_sent" <;>
          simp [bumpCounts, List.filter_append, hsent, hnone, hz]
    · rw [if_neg hn, ih]
      have hne : ¬ e.network = n := fun hc => hn hc.symm
      have hany : ((hist ++ [e]).any fun x => x.network = n) =
          (hist.any fun x => x.network = n) := by
        simp [List.any_append, hne]
      rw [hany]
      by_cases hprev : (hist.any fun x => x.network = n) = true
      · rw [if_pos hprev, if_pos hprev]
        simp [List.filter_append, hne]
      · rw [if_neg hprev, if_neg hprev]

/-- C3: a get_stats request is answered synchronously on the requesting
session with the stats object; totalMessages is the current ring length,
connectedClients (the connectedSessions of the spec wording) the number
of registered sessions, and — whenever the ring only holds the two event
kinds the relay ever appends — the networks object (perNetwork in the
spec wording) maps each network occurring in the ring to exactly its
count of message_sent and of message_received events, and maps no other
network. -/
theorem get_stats_reply :
    (∀ st ws, handleClientMessage st ws ClientMsg.getStats =
        (st, [(ws.id, ServerMsg.stats (computeStats st))])) ∧
    (∀ st, (computeStats st).totalMessages = st.messageHistory.length ∧
        (computeStats st).connectedClients = st.clients.length) ∧
    (∀ st n, (∀ e ∈ st.messageHistory,
          e.type = "message_sent" ∨ e.type = "message_received") →
        lookupNet (computeStats st).networks n =
          if st.messageHistory.any (fun e => e.network = n) then
            some ⟨(st.messageHistory.filter
                    (fun e => e.network = n ∧ e.type = "message_sent")).length,
                  (st.messageHistory.filter
                    (fun e => e.network = n ∧ e.type = "message_received")).length⟩
          else none) := by
  refine ⟨fun st ws => rfl, fun st => ⟨rfl, rfl⟩, ?_⟩
  intro st n htypes
  have hbase := lookupNet_statsFold st.messageHistory n
  have hfc : st.messageHistory.filter (fun e => e.network = n ∧ ¬ e.type = "message_sent") =
      st.messageHistory.filter (fun e => e.network = n ∧ e.type = "message_received") := by
    apply List.filter_congr
    intro e he
    rcases htypes e he with hs | hr
    · simp [hs]
    · have hns : ¬ e.type = "message_sent" := by
        rw [hr]
        decide
      simp [hr, hns]
  rw [hfc] at hbase
  exact hbase

/-- Concrete instantiation of get_stats_reply on the example of the
claim: three sent events on network A and two received events on network
B give perNetwork.A.sent = 3, perNetwork.B.received = 2 and
totalMessages = 5. -/
theorem get_stats_reply_witness :
    lookupNet (computeStats statsExampleState).networks "A" = some ⟨3, 0⟩ ∧
    lookupNet (computeStats statsExampleState).networks "B" = some ⟨0, 2⟩ ∧
    (computeStats statsExampleState).totalMessages = 5 := by
  have hA := get_stats_reply.2.2 statsExampleState "A" (by decide)
  have hB := get_stats_reply.2.2 statsExampleState "B" (by decide)
  have hT := (get_stats_reply.2.1 statsExampleState).1
  refine ⟨?_, ?_, ?_⟩
  · rw [hA]; decide
  · rw [hB]; decide
  · rw [hT]; decide

theorem mem_appendHistory (h : List Event) (e : Event) (maxSize : Nat)
    (hpos : 0 < maxSize) : e ∈ appendHistory h e maxSize := by
  unfold appendHistory
  by_cases hc : maxSize < (h ++ [e]).length
  · rw [if_pos hc]
    cases h with
    | nil => simp at hc; omega
    | cons x t => simp
  · rw [if_neg hc]
    simp

theorem mem_of_mem_appendHistory (h : List Event) (e e' : Event) (maxSize : Nat)
    (hm : e' ∈ appendHistory h e maxSize) : e' ∈ h ∨ e' = e := by
  unfold appendHistory at hm
  by_cases hc : maxSize < (h ++ [e]).length
  · rw [if_pos hc] at hm
    have := (List.tail_sublist (h ++ [e])).subset hm
    simpa using this
  · rw [if_neg hc] at hm
    simpa using hm

/-- C6: normalization of a source occurrence never raises and never
drops it: for any byte payload the decode is attempted once via
utf8CodePoints, a decodable payload makes the event carry the decoded
code points, a non-decodable one makes it carry the original bytes
under the hex flag — in both handlers — and the resulting event is
appended to history and broadcast to every OPEN session exactly like
any other event. -/
theorem normalize_total_no_drop :
    (∀ bytes, (∃ cps, utf8CodePoints bytes = some cps ∧
          normalizeMessage bytes = MessageContent.text cps) ∨
        (utf8CodePoints bytes = none ∧
          normalizeMessage bytes = MessageContent.hex bytes)) ∧
    (∀ net mid src del sndr bytes,
        (receiveHandler net mid src del sndr bytes).data.message =
            normalizeMessage bytes ∧
        (receiveHandler net mid src del sndr bytes).type = "message_received") ∧
    (∀ net mid dst addr gas bytes,
        (sendHandler net mid dst addr gas bytes).data.message =
            normalizeMessage bytes ∧
        (sendHandler net mid dst addr gas bytes).type = "message_sent") ∧
    (∀ st e, 0 < st.maxHistorySize →
        e ∈ (broadcastEvent st e).1.messageHistory ∧
        ∀ c ∈ st.clients, c.readyState = wsOPEN →
          (c.id, ServerMsg.event e) ∈ (broadcastEvent st e).2) := by
  refine ⟨?_, fun net mid src del sndr bytes => ⟨rfl, rfl⟩,
    fun net mid dst addr gas bytes => ⟨rfl, rfl⟩, ?_⟩
  · intro bytes
    cases hcase : utf8CodePoints bytes with
    | some cps =>
      exact Or.inl ⟨cps, rfl, by simp [normalizeMessage, hcase]⟩
    | none =>
      exact Or.inr ⟨rfl, by simp [normalizeMessage, hcase]⟩
  · intro st e hpos
    refine ⟨mem_appendHistory st.messageHistory e st.maxHistorySize hpos, ?_⟩
    intro c hc hopen
    simp only [broadcastEvent, List.mem_map]
    exact ⟨c, List.mem_filter.mpr ⟨hc, by simp [hopen]⟩, rfl⟩

/-- Concrete instantiation of normalize_total_no_drop: the invalid
byte 255 degrades to the hex-flagged raw payload and the resulting event
is still appended and delivered. -/
theorem normalize_total_no_drop_witness :
    (utf8CodePoints [255] = none ∧
      normalizeMessage [255] = MessageContent.hex [255]) ∧
    receiveHandler "A" 9 "chainB" "0xdel" "0xsender" [255] ∈
      (broadcastEvent { initRelay ["A"] with clients := [cl0] }
        (receiveHandler "A" 9 "chainB" "0xdel" "0xsender" [255])).1.messageHistory := by
  constructor
  · refine (normalize_total_no_drop.1 [255]).resolve_left ?_
    rintro ⟨cps, hc, -⟩
    have hnone : utf8CodePoints [255] = none := by decide
    rw [hnone] at hc
    exact Option.noConfusion hc
  · exact ((normalize_total_no_drop.2.2.2 { initRelay ["A"] with clients := [cl0] }
      (receiveHandler "A" 9 "chainB" "0xdel" "0xsender" [255])) (by decide)).1

theorem filterMap_const_some {α β : Type} (f : α → β) (l : List α) :
    l.filterMap (fun a => some (f a)) = l.map f := by
  induction l with
  | nil => rfl
  | cons a t ih => simp [List.filterMap_cons, ih]

/-- C7: within one broadcastEvent call the history append happens
strictly before every delivery: the first micro-step of broadcastPhases
is the append and delivers nothing, every delivering micro-step runs in
the already-appended state — which contains the event whenever the
capacity is positive, so the stats any concurrent get_stats computes
over that state already count it — and broadcastEvent agrees with the
phases on the final state and the delivery list. -/
theorem append_before_broadcast :
    (∀ st e, (broadcastPhases st e).head? =
        some ((broadcastEvent st e).1, none)) ∧
    (∀ st e p, p ∈ broadcastPhases st e → ¬ p.2 = none →
        p.1 = (broadcastEvent st e).1 ∧
        (0 < st.maxHistorySize → e ∈ p.1.messageHistory ∧
          0 < (computeStats p.1).totalMessages)) ∧
    (∀ st e, (broadcastPhases st e).filterMap (fun p => p.2) =
        (broadcastEvent st e).2) := by
  refine ⟨fun st e => rfl, ?_, ?_⟩
  · intro st e p hp hne
    simp only [broadcastPhases, List.mem_cons, List.mem_map] at hp
    rcases hp with hp | ⟨c, hc, hp⟩
    · rw [hp] at hne
      simp at hne
    · have hfst : p.1 = (broadcastEvent st e).1 := by
        rw [← hp]
        rfl
      refine ⟨hfst, fun hpos => ?_⟩
      rw [hfst]
      have hmem : e ∈ (broadcastEvent st e).1.messageHistory :=
        mem_appendHistory st.messageHistory e st.maxHistorySize hpos
      exact ⟨hmem, List.length_pos_of_mem hmem⟩
  · intro st e
    simp only [broadcastPhases, broadcastEvent, List.filterMap_cons]
    rw [List.filterMap_map]
    exact filterMap_const_some (fun c : Client => (c.id, ServerMsg.event e)) _

/-- Concrete instantiation of append_before_broadcast: for a relay with
one open client, the delivering micro-step sees the event already in the
history. -/
theorem append_before_broadcast_witness :
    evA 0 ∈ ((broadcastEvent { initRelay ["A"] with clients := [cl0] }
      (evA 0)).1).messageHistory := by
  have h := append_before_broadcast.2.1
    { initRelay ["A"] with clients := [cl0] } (evA 0)
    ((broadcastEvent { initRelay ["A"] with clients := [cl0] } (evA 0)).1,
      some (0, ServerMsg.event (evA 0)))
    (by decide) (by decide)
  exact (h.2 (by decide)).1

theorem onMessage_state_eq (st : RelayState) (ws : Client) (raw : RawMsg) :
    (onMessage st ws raw).1 = st := by
  cases raw with
  | malformed err => rfl
  | parsed data => cases data <;> rfl

theorem tallyMsg_keys (acc : List (String × NetCounts)) (net : String) (b : Bool) :
    (tallyMsg acc net b).map Prod.fst = acc.map Prod.fst := by
  induction acc with
  | nil => rfl
  | cons p ps ih =>
    simp only [tallyMsg, List.map_cons] at ih ⊢
    by_cases h : p.1 = net <;> simp [h, ih]

theorem ensureNet_keys_nodup (acc : List (String × NetCounts)) (net : String)
    (hnd : (acc.map Prod.fst).Nodup) : ((ensureNet acc net).map Prod.fst).Nodup := by
  unfold ensureNet
  by_cases hany : acc.any (fun p => p.1 = net) = true
  · rw [if_pos hany]
    exact hnd
  · rw [if_neg hany]
    have hnotin : net ∉ acc.map Prod.fst := by
      intro hmem
      simp only [List.mem_map] at hmem
      obtain ⟨p, hp, hkey⟩ := hmem
      exact hany (List.any_eq_true.mpr ⟨p, hp, by simp [hkey]⟩)
    simp [List.map_append, List.nodup_append, hnd, hnotin]

theorem ensureNet_has_key (acc : List (String × NetCounts)) (net : String) :
    (ensureNet acc net).any (fun p => p.1 = net) = true := by
  unfold ensureNet
  by_cases hany : acc.any (fun p => p.1 = net) = true
  · rw [if_pos hany]
    exact hany
  · rw [if_neg hany]
    simp [List.any_append]

theorem sumNetCounts_ensureNet (acc : List (String × NetCounts)) (net : String) :
    sumNetCounts (ensureNet acc net) = sumNetCounts acc := by
  unfold ensureNet
  by_cases hany : acc.any (fun p => p.1 = net) = true
  · rw [if_pos hany]
  · rw [if_neg hany]
    simp [sumNetCounts, List.map_append, List.sum_append]

theorem tallyMsg_of_no_key (net : String) (b : Bool) :
    ∀ acc, acc.any (fun p => p.1 = net) = false → tallyMsg acc net b = acc := by
  intro acc
  induction acc with
  | nil => intro _; rfl
  | cons p ps ih =>
    intro hno
    simp only [List.any_cons, Bool.or_eq_false_iff, decide_eq_false_iff_not] at hno
    obtain ⟨h1, h2⟩ := hno
    have hps := ih (by simpa using h2)
    simp only [tallyMsg, List.map_cons] at hps ⊢
    simp [h1, hps]

theorem sumNetCounts_tallyMsg (net : String) (b : Bool) :
    ∀ acc, (acc.map Prod.fst).Nodup → acc.any (fun p => p.1 = net) = true →
      sumNetCounts (tallyMsg acc net b) = sumNetCounts acc + 1 := by
  intro acc
  induction acc with
  | nil =>
    intro _ h
    simp at h
  | cons p ps ih =>
    intro hnd hany
    have hnd' : (ps.map Prod.fst).Nodup := (List.nodup_cons.mp (by simpa using hnd)).2
    have hnotin : p.1 ∉ ps.map Prod.fst := (List.nodup_cons.mp (by simpa using hnd)).1
    by_cases h : p.1 = net
    · have hker : ps.any (fun q => q.1 = net) = false := by
        cases hq : ps.any (fun q => q.1 = net) with
        | false => rfl
        | true =>
          obtain ⟨q, hqmem, hqkey⟩ := List.any_eq_true.mp hq
          have hq1 : q.1 = p.1 := by
            have : q.1 = net := by simpa using hqkey
            rw [this, h]
          exact absurd (hq1 ▸ List.mem_map_of_mem Prod.fst hqmem) hnotin
      have hid := tallyMsg_of_no_key net b ps hker
      simp only [tallyMsg, List.map_cons] at hid ⊢
      rw [hid]
      simp [h, sumNetCounts, bumpCounts]
      cases b <;> simp <;> omega
    · have hany' : ps.any (fun q => q.1 = net) = true := by
        simp only [List.any_cons] at hany
        simpa [h] using hany
      have hrec := ih hnd' hany'
      simp only [tallyMsg] at hrec ⊢
      simp [h, sumNetCounts, List.map_cons, List.sum_cons] at hrec ⊢
      omega

theorem statsStep_keys_nodup (acc : List (String × NetCounts)) (e : Event)
    (hnd : (acc.map Prod.fst).Nodup) : ((statsStep acc e).map Prod.fst).Nodup := by
  unfold statsStep
  rw [tallyMsg_keys]
  exact ensureNet_keys_nodup acc e.network hnd

theorem sumNetCounts_statsStep (acc : List (String × NetCounts)) (e : Event)
    (hnd : (acc.map Prod.fst).Nodup) :
    sumNetCounts (statsStep acc e) = sumNetCounts acc + 1 := by
  unfold statsStep
  rw [sumNetCounts_tallyMsg e.network _ (ensureNet acc e.network)
    (ensureNet_keys_nodup acc e.network hnd) (ensureNet_has_key acc e.network)]
  rw [sumNetCounts_ensureNet]

theorem sumNetCounts_foldl :
    ∀ (hist : List Event) (acc), (acc.map Prod.fst).Nodup →
      sumNetCounts (hist.foldl statsStep acc) = sumNetCounts acc + hist.length := by
  intro hist
  induction hist with
  | nil =>
    intro acc _
    simp
  | cons e es ih =>
    intro acc h
    simp only [List.foldl_cons]
    rw [ih _ (statsStep_keys_nodup acc e h), sumNetCounts_statsStep acc e h]
    simp [List.length_cons]
    omega

/-- C10: in every reachable relay state the ring only holds events of
type message_sent or message_received (those are the only two event
shapes the contract handlers construct and broadcastEvent is their only
caller), so the per-network counters of a stats reply partition the
ring: the sum over all networks of sent + received equals
totalMessages. -/
theorem ring_event_kinds :
    ∀ st, Reachable st →
      (∀ e ∈ st.messageHistory,
        e.type = "message_sent" ∨ e.type = "message_received") ∧
      sumNetCounts (computeStats st).networks = (computeStats st).totalMessages := by
  intro st hst
  have htypes : ∀ e ∈ st.messageHistory,
      e.type = "message_sent" ∨ e.type = "message_received" := by
    induction hst with
    | init ns =>
      intro e he
      simp [initRelay] at he
    | connect ws _ ih => exact ih
    | close ws _ ih => exact ih
    | message ws raw _ ih =>
      intro e he
      rw [onMessage_state_eq] at he
      exact ih e he
    | receiveEvent nn mid src del osa mb _ ih =>
      intro e he
      rcases mem_of_mem_appendHistory _ _ _ _ he with hmem | heq
      · exact ih e hmem
      · right
        rw [heq]
        rfl
    | sendEvent nn mid dst addr gas mb _ ih =>
      intro e he
      rcases mem_of_mem_appendHistory _ _ _ _ he with hmem | heq
      · exact ih e hmem
      · left
        rw [heq]
        rfl
  refine ⟨htypes, ?_⟩
  have hsum := sumNetCounts_foldl st.messageHistory [] (by simp)
  simpa [computeStats, sumNetCounts] using hsum

/-- Concrete instantiation of ring_event_kinds on the reachable state
obtained by one SendCrossChainMessage emission. -/
theorem ring_event_kinds_witness :
    sumNetCounts (computeStats (broadcastEvent (initRelay ["A"])
        (sendHandler "A" 0 "chainC" "0xdest" 100000 [104, 105])).1).networks =
      (computeStats (broadcastEvent (initRelay ["A"])
        (sendHandler "A" 0 "chainC" "0xdest" 100000 [104, 105])).1).totalMessages :=
  (ring_event_kinds _ (Reachable.sendEvent "A" 0 "chainC" "0xdest" 100000 [104, 105]
    (Reachable.init ["A"]))).2

theorem foldBroadcast_state (es : List Event) :
    ∀ st, (foldBroadcast st es).1 =
      { st with messageHistory :=
          es.foldl (fun h e => appendHistory h e st.maxHistorySize) st.messageHistory } := by
  induction es with
  | nil =>
    intro st
    rfl
  | cons e es ih =>
    intro st
    simp only [foldBroadcast]
    rw [ih]
    rfl

theorem foldBroadcast_log_nil_clients (es : List Event) :
    ∀ st, st.clients = [] → (foldBroadcast st es).2 = [] := by
  induction es with
  | nil =>
    intro st _
    rfl
  | cons e es ih =>
    intro st h
    simp only [foldBroadcast]
    have h1 : (broadcastEvent st e).2 = [] := by
      simp [broadcastEvent, h]
    have h2 : (broadcastEvent st e).1.clients = [] := h
    rw [h1, ih _ h2]
    rfl

theorem foldBroadcast_log_single (es : List Event) (c : Client)
    (hopen : c.readyState = wsOPEN) :
    ∀ st, st.clients = [c] →
      (foldBroadcast st es).2 = es.map (fun e => (c.id, ServerMsg.event e)) := by
  induction es with
  | nil =>
    intro st _
    rfl
  | cons e es ih =>
    intro st h
    simp only [foldBroadcast]
    have h1 : (broadcastEvent st e).2 = [(c.id, ServerMsg.event e)] := by
      simp [broadcastEvent, h, hopen]
    have h2 : (broadcastEvent st e).1.clients = [c] := h
    rw [h1, ih _ h2]
    rfl

theorem historyEventsTo_append (cid : Nat) (l1 l2 : List (Nat × ServerMsg)) :
    historyEventsTo cid (l1 ++ l2) = historyEventsTo cid l1 ++ historyEventsTo cid l2 := by
  simp [historyEventsTo, List.filterMap_append, List.flatten_append]

theorem liveEventsTo_append (cid : Nat) (l1 l2 : List (Nat × ServerMsg)) :
    liveEventsTo cid (l1 ++ l2) = liveEventsTo cid l1 ++ liveEventsTo cid l2 := by
  simp [liveEventsTo, List.filterMap_append]

theorem historyEventsTo_events (cid i : Nat) (es : List Event) :
    historyEventsTo cid (es.map (fun e => (i, ServerMsg.event e))) = [] := by
  induction es with
  | nil => rfl
  | cons e t ih =>
    simp only [List.map_cons, historyEventsTo, List.filterMap_cons] at ih ⊢
    simp

theorem liveEventsTo_events (cid : Nat) (es : List Event) :
    liveEventsTo cid (es.map (fun e => (cid, ServerMsg.event e))) = es := by
  induction es with
  | nil => rfl
  | cons e t ih =>
    simp only [liveEventsTo, List.map_cons, List.filterMap_cons] at ih ⊢
    simp [ih]

theorem connectTrace_replay_live (ns : List String) (before after : List Event)
    (c : Client) (hopen : c.readyState = wsOPEN) :
    historyEventsTo c.id (connectTrace ns before after c).2 =
      (foldBroadcast (initRelay ns) before).1.messageHistory ∧
    liveEventsTo c.id (connectTrace ns before after c).2 = after := by
  have hcl1 : (foldBroadcast (initRelay ns) before).1.clients = [] := by
    rw [foldBroadcast_state]
    rfl
  have hlog1 : (foldBroadcast (initRelay ns) before).2 = [] :=
    foldBroadcast_log_nil_clients before (initRelay ns) rfl
  have haddc : (onConnection (foldBroadcast (initRelay ns) before).1 c).1.clients = [c] := by
    simp [onConnection, addClient, hcl1]
  have hlog3 : (foldBroadcast (onConnection (foldBroadcast (initRelay ns) before).1 c).1
      after).2 = after.map (fun e => (c.id, ServerMsg.event e)) :=
    foldBroadcast_log_single after c hopen _ haddc
  have hlog : (connectTrace ns before after c).2 =
      (onConnection (foldBroadcast (initRelay ns) before).1 c).2 ++
        after.map (fun e => (c.id, ServerMsg.event e)) := by
    simp only [connectTrace]
    rw [hlog1, hlog3]
    simp
  rw [hlog, historyEventsTo_append, liveEventsTo_append,
    historyEventsTo_events c.id c.id after, liveEventsTo_events c.id after]
  by_cases hpos : 0 < (foldBroadcast (initRelay ns) before).1.messageHistory.length
  · have hmsgs : (onConnection (foldBroadcast (initRelay ns) before).1 c).2 =
        [(c.id, ServerMsg.connected (foldBroadcast (initRelay ns) before).1.networks),
         (c.id, ServerMsg.history (foldBroadcast (initRelay ns) before).1.messageHistory)] := by
      simp [onConnection, if_pos hpos]
    rw [hmsgs]
    constructor
    · simp [historyEventsTo, List.filterMap_cons]
    · simp [liveEventsTo, List.filterMap_cons]
  · have hnil : (foldBroadcast (initRelay ns) before).1.messageHistory = [] := by
      have := Nat.eq_zero_of_not_pos hpos
      exact List.length_eq_zero.mp this
    have hmsgs : (onConnection (foldBroadcast (initRelay ns) before).1 c).2 =
        [(c.id, ServerMsg.connected (foldBroadcast (initRelay ns) before).1.networks)] := by
      simp [onConnection, if_neg hpos]
    rw [hmsgs, hnil]
    constructor
    · simp [historyEventsTo, List.filterMap_cons]
    · simp [liveEventsTo, List.filterMap_cons]

theorem foldBroadcast_initRelay_ring (ns : List String) (before : List Event) :
    (foldBroadcast (initRelay ns) before).1.messageHistory = ringAfter 100 before := by
  rw [foldBroadcast_state]
  rfl

theorem foldBroadcast_initRelay_history (ns : List String) (before : List Event)
    (hlen : before.length ≤ 100) :
    (foldBroadcast (initRelay ns) before).1.messageHistory = before := by
  rw [foldBroadcast_initRelay_ring, ringAfter_eq_drop, Nat.sub_eq_zero_of_le hlen]
  exact List.drop_zero before

/-- C2 counterexample: append 101 pairwise distinct events into the
default capacity-100 ring, then connect a session and append nothing
more. The first appended event was evicted before the connect, so the
session finds it neither in its history replay nor in any live
broadcast — against the claim that every appended event reaches the
session exactly once. -/
theorem replay_live_partition_cex :
    evA 0 ∈ (List.range 101).map evA ∧
    evA 0 ∉ historyEventsTo cl0.id
      (connectTrace ["A"] ((List.range 101).map evA) [] cl0).2 ∧
    evA 0 ∉ liveEventsTo cl0.id
      (connectTrace ["A"] ((List.range 101).map evA) [] cl0).2 := by
  obtain ⟨hrep, hlive⟩ :=
    connectTrace_replay_live ["A"] ((List.range 101).map evA) [] cl0 rfl
  refine ⟨List.mem_map_of_mem evA (by simp), ?_, ?_⟩
  · rw [hrep, foldBroadcast_initRelay_ring, ringAfter_eq_drop]
    simp only [List.length_map, List.length_range]
    rw [← List.map_drop]
    intro hmem
    rw [List.mem_map] at hmem
    obtain ⟨i, hi, heq⟩ := hmem
    have hid : i = 0 := by
      have := congrArg Event.messageId heq
      simpa [evA, receiveHandler] using this
    subst hid
    exact absurd hi (by decide)
  · rw [hlive]
    simp

/-- C2 amended: provided no more than H = 100 events are appended before
the connect (so nothing is evicted before the snapshot), every appended
event reaches the connecting session exactly once — it is in the history
replay if appended before the connect and in exactly one live broadcast
if appended after, never both and never neither; without that proviso
the partition still holds for the events surviving in the ring at
connect together with all later events, while events evicted before the
connect reach the session not at all. -/
theorem replay_live_partition :
    ∀ ns before after c, c.readyState = wsOPEN →
      (before ++ after).Nodup → before.length ≤ 100 →
      ∀ e ∈ before ++ after,
        (e ∈ historyEventsTo c.id (connectTrace ns before after c).2 ∧
          e ∉ liveEventsTo c.id (connectTrace ns before after c).2) ∨
        (e ∉ historyEventsTo c.id (connectTrace ns before after c).2 ∧
          e ∈ liveEventsTo c.id (connectTrace ns before after c).2) := by
  intro ns before after c hopen hnd hlen e he
  obtain ⟨hrep, hlive⟩ := connectTrace_replay_live ns before after c hopen
  rw [foldBroadcast_initRelay_history ns before hlen] at hrep
  have hdisj := List.disjoint_of_nodup_append hnd
  rw [List.mem_append] at he
  rcases he with h1 | h2
  · left
    refine ⟨by rw [hrep]; exact h1, by rw [hlive]; exact fun hc => hdisj h1 hc⟩
  · right
    refine ⟨by rw [hrep]; exact fun hc => hdisj hc h2, by rw [hlive]; exact h2⟩

/-- Concrete instantiation of replay_live_partition: one event before
the connect and one after; the first ends up in the replay only. -/
theorem replay_live_partition_witness :
    (evA 0 ∈ historyEventsTo cl0.id (connectTrace ["A"] [evA 0] [evA 1] cl0).2 ∧
      evA 0 ∉ liveEventsTo cl0.id (connectTrace ["A"] [evA 0] [evA 1] cl0).2) ∨
    (evA 0 ∉ historyEventsTo cl0.id (connectTrace ["A"] [evA 0] [evA 1] cl0).2 ∧
      evA 0 ∈ liveEventsTo cl0.id (connectTrace ["A"] [evA 0] [evA 1] cl0).2) :=
  replay_live_partition ["A"] [evA 0] [evA 1] cl0 (by decide) (by decide)
    (by decide) (evA 0) (by decide)

end Relay
